import Mathlib

/-!
Verification of the detection-redundancy-removal core of the repository
(`modules/removal_export_pipeline`).  The Python sources are shallowly
embedded below: pure computations become Lean functions over `ℚ`, `ℕ`,
`List` and `Option`, randomness is threaded as explicit oracle parameters,
and the file-system effects of the export step become explicit state
passing.  Each claim about the specification is settled by a theorem at
the end of the file.
-/

namespace RemovalPipeline

/-! ## §4.2 DuplicateVoteAggregator (duplicate_utils.py, find_duplicates) -/

/-- Outcome of invoking one visual verifier on a crop pair: either the
verifier returns its RANSAC match count, or it raises an exception and the
caller scores the invocation with zero matches
(duplicate_utils.py lines 316-321). -/
inductive VerifierOutcome where
  | matches (n : ℕ)
  | failure
deriving DecidableEq, Repr

/-- Match count used by the vote loop: an exception is caught, logged and
counted as zero matches (duplicate_utils.py line 321). -/
def VerifierOutcome.matchCount : VerifierOutcome → ℕ
  | .matches n => n
  | .failure => 0

/-- Vote condition of duplicate_utils.py line 323: a verifier casts a vote
iff its configured threshold is strictly below the RANSAC match count. -/
def castsVote (threshold : ℕ) (o : VerifierOutcome) : Bool :=
  decide (threshold < o.matchCount)

/-- Vote tally over the verifier list, mirroring the accumulation loop of
duplicate_utils.py lines 307-324.  Each list entry is a verifier given as
its threshold paired with the outcome of this invocation. -/
def countVotes (apis : List (ℕ × VerifierOutcome)) : ℕ :=
  apis.foldl (fun votes api => if castsVote api.1 api.2 then votes + 1 else votes) 0

/-- Edge-recording condition of duplicate_utils.py line 326:
a duplicate edge is appended iff votes >= len(apis) // 2 + 1. -/
def edgeRecorded (apis : List (ℕ × VerifierOutcome)) : Bool :=
  decide (apis.length / 2 + 1 ≤ countVotes apis)

/-! ## §4.1 GeoNeighborIndex (duplicate_utils.py, find_neighbors) -/

/-- Radius handed to the BallTree query: (distance_meters / 1000) / 6371,
kilometres divided by the Earth radius in kilometres
(duplicate_utils.py line 125). -/
def neighborRadius (distanceMeters : ℚ) : ℚ :=
  distanceMeters / 1000 / 6371

/-- Result of BallTree.query_radius for row i over n indexed points with
pairwise distance function d: all indices whose distance from i is at most
the radius r.  The queried point itself is part of this result whenever
its self-distance is zero (the haversine distance of a point to itself),
since 0 ≤ r. -/
def queryRadius (d : ℕ → ℕ → ℚ) (n : ℕ) (r : ℚ) (i : ℕ) : List ℕ :=
  (List.range n).filter (fun j => decide (d i j ≤ r))

/-- Neighbors list stored into the dataframe for row i
(duplicate_utils.py lines 130-144).  The branch guarded by
len(indices) > 1 only converts the numpy array into a Python list; no
index is removed, so the stored list is the raw query result with the
queried image index still inside it. -/
def storedNeighbors (d : ℕ → ℕ → ℚ) (n : ℕ) (r : ℚ) (i : ℕ) : List ℕ :=
  queryRadius d n r i

/-! ## §4.7 ClusterRedundancyReducer (location_duplicates_utils.py, process_row) -/

/-- Oracle supplying the draws that process_row takes from the
process-global random module: choice l models random.choice(l) and
sample l k models random.sample(l, k). -/
structure RandOracle where
  choice : List ℕ → ℕ
  sample : List ℕ → ℕ → List ℕ

/-- Validity of an oracle, matching the guarantees of the Python random
module: choice returns a member of a nonempty list, and sample returns k
elements drawn from the list without replacement (distinct positions, so
distinct values when the list has no duplicates). -/
def RandOracle.Valid (R : RandOracle) : Prop :=
  (∀ l, l ≠ [] → R.choice l ∈ l) ∧
  (∀ l k, k ≤ l.length →
    (R.sample l k).length = k ∧ (∀ x ∈ R.sample l k, x ∈ l) ∧
      (l.Nodup → (R.sample l k).Nodup))

/-- Deterministic oracle used for concrete evaluations: choice picks the
head and sample takes the first k entries. -/
def takeOracle : RandOracle where
  choice l := l.headD 0
  sample l k := l.take k

/-- Maximal multiplicity over the list, i.e. the count of
Counter(image_ids).most_common()[0] (location_duplicates_utils.py
lines 413-415) and of max(set(image_ids), key=image_ids.count). -/
def maxCount [DecidableEq α] (l : List α) : ℕ :=
  (l.dedup.map (fun x => l.count x)).foldr max 0

/-- Element of l attaining the maximal multiplicity, taking the first one
in first-occurrence order among those attaining it.  This models both
most_common()[0][0] (Counter preserves insertion order, which is
first-occurrence order) and max(set(image_ids), key=image_ids.count);
for the latter Python iterates the set in an unspecified order, but in
every branch below the chosen element is only interrogated through its
multiplicity, and the multiset shapes involved (2+1, 3+1, 2+2, 2+1+1,
majority over half) make the branch outcome independent of which maximal
element is returned when several tie. -/
def majorityId [DecidableEq α] [Inhabited α] (l : List α) : α :=
  (l.dedup.filter (fun x => l.count x = maxCount l)).headD default

/-- Indices of the entries whose image id differs from a, transcribing
[i for i, x in enumerate(image_ids) if x != majority_id]
(location_duplicates_utils.py lines 356, 378, 390-392, 431-433). -/
def idxNotEq [DecidableEq α] (l : List α) (a : α) : List ℕ :=
  (l.enum.filter (fun p => decide (p.2 ≠ a))).map (fun p => p.1)

/-- Decision policy of process_row (location_duplicates_utils.py lines
319-466) over one cluster's positionally paired image_ids and
annotation_ids lists.  none models the Python None return; some (is, bs)
models the returned one-row dataframe holding the list-valued cells
image_ids = is and annotation_ids = bs.  Unreachable fall-through paths
return none exactly as the Python function falls off its end. -/
def processRow [DecidableEq α] [Inhabited α] [Inhabited β] (R : RandOracle)
    (image_ids : List α) (annotation_ids : List β) : Option (List α × List β) :=
  -- Case 1: a single image id
  if image_ids.length = 1 then none
  -- Case 2: all image ids identical
  else if image_ids.dedup.length = 1 then none
  -- Case 3: two image ids
  else if image_ids.length = 2 then
    let sel := R.choice [0, 1]
    some ([image_ids.getD sel default], [annotation_ids.getD sel default])
  -- Case 4: three image ids
  else if image_ids.length = 3 then
    if image_ids.dedup.length = 3 then
      let sel := R.sample [0, 1, 2] 2
      some (sel.map (fun i => image_ids.getD i default),
            sel.map (fun i => annotation_ids.getD i default))
    else if image_ids.count (majorityId image_ids) = 2 then
      let mi := (idxNotEq image_ids (majorityId image_ids)).headD 0
      some ([image_ids.getD mi default], [annotation_ids.getD mi default])
    else none
  -- Case 5: four image ids
  else if image_ids.length = 4 then
    if image_ids.dedup.length = 4 then
      let sel := R.sample [0, 1, 2, 3] 3
      some (sel.map (fun i => image_ids.getD i default),
            sel.map (fun i => annotation_ids.getD i default))
    else if image_ids.count (majorityId image_ids) = 3 then
      let mi := (idxNotEq image_ids (majorityId image_ids)).headD 0
      some ([image_ids.getD mi default], [annotation_ids.getD mi default])
    else if image_ids.count (majorityId image_ids) = 2 then
      if image_ids.dedup.length = 3 then
        let diff := idxNotEq image_ids (majorityId image_ids)
        some (diff.map (fun i => image_ids.getD i default),
              diff.map (fun i => annotation_ids.getD i default))
      else
        let sel := R.choice [0, 1, 2, 3]
        some ([image_ids.getD sel default], [annotation_ids.getD sel default])
    else none
  -- Case 6: more than four image ids
  else if 4 < image_ids.length then
    if image_ids.dedup.length = image_ids.length then
      let sel := R.sample (List.range image_ids.length) (image_ids.length - 1)
      some (sel.map (fun i => image_ids.getD i default),
            sel.map (fun i => annotation_ids.getD i default))
    else if image_ids.length < 2 * maxCount image_ids then
      let minority := idxNotEq image_ids (majorityId image_ids)
      let sel := R.sample minority (min 2 minority.length)
      some (sel.map (fun i => image_ids.getD i default),
            sel.map (fun i => annotation_ids.getD i default))
    else if image_ids.dedup.all (fun x => image_ids.count x = 2) then
      some ([image_ids.dedup.getD 0 default, image_ids.dedup.getD 1 default],
            [annotation_ids.getD (image_ids.indexOf (image_ids.dedup.getD 0 default)) default,
             annotation_ids.getD (image_ids.indexOf (image_ids.dedup.getD 1 default)) default])
    else
      let sel := R.choice (List.range image_ids.length)
      some ([image_ids.getD sel default], [annotation_ids.getD sel default])
  else none

/-- Entries deleted from the dataset for one cluster row: remove_duplicates
inserts every (image id, annotation id) pair of the dataframe returned by
process_row into for_deletion_dict and removes exactly those annotations
(location_duplicates_utils.py lines 484-512). -/
def deletedEntries [DecidableEq α] [Inhabited α] [Inhabited β] (R : RandOracle)
    (image_ids : List α) (annotation_ids : List β) : List (α × β) :=
  match processRow R image_ids annotation_ids with
  | none => []
  | some (is, bs) => is.zip bs

/-! ## §4.3 DuplicateGraphReducer (duplicate_utils.py, remove_duplicates) -/

/-- Nodes touched by at least one duplicate edge: the node set of the
networkx graph built by g.add_edge over the duplicates dataframe
(duplicate_utils.py lines 389-395). -/
def touchedNodes (es : List (V × V)) : List V :=
  es.flatMap (fun e => [e.1, e.2])

/-- Adds one undirected edge to the running partition of the graph's
nodes: every part containing either endpoint is merged into one part,
endpoints not seen before are adjoined to it, and all other parts are
kept unchanged.  Folding this over the edge list computes the connected
components that nx.connected_components returns for the edge-built graph
(duplicate_utils.py line 398): two nodes share a part iff they are
joined by a path of edges. -/
def addEdge [DecidableEq V] (comps : List (List V)) (e : V × V) : List (List V) :=
  let p := fun c : List V => decide (e.1 ∈ c ∨ e.2 ∈ c)
  let core := (comps.filter p).flatten
  let withU := if e.1 ∈ core then core else core ++ [e.1]
  let withUV := if e.2 ∈ withU then withU else withU ++ [e.2]
  withUV :: comps.filter (fun c => ! p c)

/-- Connected components of the duplicate-edge graph, as the list of
groups iterated at duplicate_utils.py lines 398-399. -/
def components [DecidableEq V] (es : List (V × V)) : List (List V) :=
  es.foldl addEdge []

/-- Deletion pass of remove_duplicates (duplicate_utils.py lines
402-407): for each group, the member at the drawn keep index survives and
every other member is appended to the deletion list; keep i models the
random.randint(0, len(group) - 1) draw for the i-th group. -/
def deleteGroups (keep : ℕ → ℕ) : ℕ → List (List V) → List V
  | _, [] => []
  | i, c :: rest => c.eraseIdx (keep i) ++ deleteGroups keep (i + 1) rest

/-- Full deletion list of the graph reduction. -/
def forDeletion [DecidableEq V] (es : List (V × V)) (keep : ℕ → ℕ) : List V :=
  deleteGroups keep 0 (components es)

/-! ## §4.6 DensityPeakAggregator (location_estimator/aggregate.py) -/

/-- Estimated geo-point fed to aggregation: coordinates plus the
back-references (label, image id, annotation id) attached by
aggregate_shops (location_duplicates_utils.py lines 284-289).  Image and
annotation identifiers are opaque tokens, represented as naturals. -/
structure GeoObj where
  lat : ℚ
  lng : ℚ
  label : ℕ
  image : ℕ
  id : ℕ
deriving DecidableEq, Repr, Inhabited

/-- Modelled from the spec: latlng.py (class LatLng with get_xy) is not
among the sources.  Section 4.4 describes a "local planar projection"
in which each point gets "its planar (x, y) offset from the origin", so
get_xy a b is modelled as the planar offset of b relative to a: x from
the longitude difference and y from the latitude difference, in planar
units. -/
def getXY (a b : GeoObj) : ℚ × ℚ :=
  (b.lng - a.lng, b.lat - a.lat)

/-- Modelled from the spec: inverse of the planar projection, standing
for latlng.py get_latlng, which turns a planar offset relative to a back
into coordinates. -/
def getLatLng (a : GeoObj) (x y : ℚ) : ℚ × ℚ :=
  (a.lat + y, a.lng + x)

/-- Planar x offset of point i from point 0 (aggregate.py lines 25-28;
px[0] keeps its zero initialisation). -/
def pxOf (objs : List GeoObj) (i : ℕ) : ℚ :=
  if i = 0 then 0 else (getXY (objs.getD 0 default) (objs.getD i default)).1

/-- Planar y offset of point i from point 0. -/
def pyOf (objs : List GeoObj) (i : ℕ) : ℚ :=
  if i = 0 then 0 else (getXY (objs.getD 0 default) (objs.getD i default)).2

/-- Squared planar distance between points i and j as computed in the
density and isolation loops (aggregate.py lines 37 and 55-56). -/
def sqDist (objs : List GeoObj) (i j : ℕ) : ℚ :=
  (pxOf objs i - pxOf objs j) ^ 2 + (pyOf objs i - pyOf objs j) ^ 2

/-- Neighbor test of the density loop (aggregate.py lines 34-38):
j contributes to i iff i ≠ j and the squared distance is strictly below
threshold_1 squared, with threshold_1 = minDist / 2. -/
def isNeighbor (objs : List GeoObj) (minDist : ℚ) (i j : ℕ) : Bool :=
  decide (i ≠ j ∧ sqDist objs i j < (minDist / 2) ^ 2)

/-- Indices feeding point i's density, in ascending loop order. -/
def neighborIdx (objs : List GeoObj) (minDist : ℚ) (i : ℕ) : List ℕ :=
  (List.range objs.length).filter (fun j => isNeighbor objs minDist i j)

/-- Local density s of point i (aggregate.py lines 31-39): one for the
point itself plus one per in-radius neighbor. -/
def density (objs : List GeoObj) (minDist : ℚ) (i : ℕ) : ℕ :=
  1 + (neighborIdx objs minDist i).length

/-- Density with the tie-breaking jitter added (aggregate.py line 45):
rho[i] = s + np.random.rand() * 0.01, the random draw threaded as the
jitter argument. -/
def rho (objs : List GeoObj) (minDist : ℚ) (jitter : ℕ → ℚ) (i : ℕ) : ℚ :=
  (density objs minDist i : ℚ) + jitter i

/-- Centroid x coordinate of point i and its neighbors
(aggregate.py lines 32-46): ave_x / s. -/
def aveX (objs : List GeoObj) (minDist : ℚ) (i : ℕ) : ℚ :=
  (pxOf objs i + ((neighborIdx objs minDist i).map (pxOf objs)).sum)
    / (density objs minDist i : ℚ)

/-- Centroid y coordinate of point i and its neighbors. -/
def aveY (objs : List GeoObj) (minDist : ℚ) (i : ℕ) : ℚ :=
  (pyOf objs i + ((neighborIdx objs minDist i).map (pyOf objs)).sum)
    / (density objs minDist i : ℚ)

/-- Isolation value dis[i] (aggregate.py lines 52-57): the running
minimum over all j with rho[j] > rho[i] of the squared distance to j,
started at the sentinel 2147483647. -/
def disVal (objs : List GeoObj) (minDist : ℚ) (jitter : ℕ → ℚ) (i : ℕ) : ℚ :=
  (List.range objs.length).foldl
    (fun m j =>
      if rho objs minDist jitter j > rho objs minDist jitter i
          ∧ sqDist objs i j < m
        then sqDist objs i j else m)
    2147483647

/-- Aggregated cluster record (aggregate.py lines 62-66): the centroid
coordinate plus the contributor label, image-id and annotation-id lists
gathered by the density loop. -/
structure AggPoint where
  lat : ℚ
  lng : ℚ
  labels : List ℕ
  images : List ℕ
  ids : List ℕ
deriving DecidableEq, Repr

/-- Cluster record emitted for exemplar index i: contributor lists start
with the point's own references and append each neighbor's in loop order
(aggregate.py lines 18-20 and 42-44). -/
def aggOutputAt (objs : List GeoObj) (minDist : ℚ) (i : ℕ) : AggPoint where
  lat := (getLatLng (objs.getD 0 default) (aveX objs minDist i) (aveY objs minDist i)).1
  lng := (getLatLng (objs.getD 0 default) (aveX objs minDist i) (aveY objs minDist i)).2
  labels := (objs.getD i default).label
    :: (neighborIdx objs minDist i).map (fun j => (objs.getD j default).label)
  images := (objs.getD i default).image
    :: (neighborIdx objs minDist i).map (fun j => (objs.getD j default).image)
  ids := (objs.getD i default).id
    :: (neighborIdx objs minDist i).map (fun j => (objs.getD j default).id)

/-- Density-peak aggregation (aggregate.py): emits a cluster for every
index whose isolation value strictly exceeds minDist squared; an input
with fewer than one point yields the empty list. -/
def aggregate (objs : List GeoObj) (minDist : ℚ) (jitter : ℕ → ℚ) : List AggPoint :=
  if objs.length < 1 then []
  else
    ((List.range objs.length).filter
      (fun i => decide (minDist ^ 2 < disVal objs minDist jitter i))).map
      (aggOutputAt objs minDist)

/-! ## §4.4 BuildingSpatialIndex (location_estimator/buildingmanager.py) -/

/-- Building footprint: reference id plus polygon node coordinates as
(lat, lng) pairs (buildingmanager.py Building). -/
structure Building where
  ref : ℕ
  nodes : List (ℚ × ℚ)
deriving DecidableEq, Repr

/-- Modelled from the spec: planar offset between two (lat, lng) points,
standing for latlng.py get_xy exactly as getXY does for geo-points: x
from the longitude difference, y from the latitude difference. -/
def getXYp (a b : ℚ × ℚ) : ℚ × ℚ :=
  (b.2 - a.2, b.1 - a.1)

/-- Python int() truncation of a nonnegative rational, as applied to the
abs-normalised offsets in create_grid and find_buildings. -/
def truncNat (q : ℚ) : ℕ :=
  (Int.floor q).toNat

/-- All footprint nodes, in building-major order (the nested loops of
create_grid, buildingmanager.py lines 193-199 and 217-224). -/
def allNodes (bs : List Building) : List (ℚ × ℚ) :=
  bs.flatMap (fun b => b.nodes)

/-- Bounding-box accumulators of create_grid (lines 188-199), with the
Python initial values. -/
def minLatOf (bs : List Building) : ℚ :=
  (allNodes bs).foldl (fun m nd => min m nd.1) 9999999

/-- Minimum longitude over all loaded nodes. -/
def minLngOf (bs : List Building) : ℚ :=
  (allNodes bs).foldl (fun m nd => min m nd.2) 9999999

/-- Maximum latitude over all loaded nodes. -/
def maxLatOf (bs : List Building) : ℚ :=
  (allNodes bs).foldl (fun m nd => max m nd.1) (-999999)

/-- Maximum longitude over all loaded nodes. -/
def maxLngOf (bs : List Building) : ℚ :=
  (allNodes bs).foldl (fun m nd => max m nd.2) (-999999)

/-- Grid width (buildingmanager.py line 202): absolute x offset from the
(min lat, min lng) corner to the (max lat, max lng) corner. -/
def widthOf (bs : List Building) : ℚ :=
  |(getXYp (minLatOf bs, minLngOf bs) (maxLatOf bs, maxLngOf bs)).1|

/-- Grid height (line 203). -/
def heightOf (bs : List Building) : ℚ :=
  |(getXYp (minLatOf bs, minLngOf bs) (maxLatOf bs, maxLngOf bs)).2|

/-- Grid x dimension nx = int(width / interval) + 3 (line 207). -/
def nxOf (bs : List Building) (interval : ℚ) : ℕ :=
  truncNat (widthOf bs / interval) + 3

/-- Grid y dimension ny = int(height / interval) + 3 (line 209). -/
def nyOf (bs : List Building) (interval : ℚ) : ℕ :=
  truncNat (heightOf bs / interval) + 3

/-- Grid cell receiving a footprint node (lines 218-224): the
abs-normalised planar offsets divided by the interval, truncated, plus
the halo offset 1 on each axis. -/
def cellOf (bs : List Building) (interval : ℚ) (nd : ℚ × ℚ) : ℕ × ℕ :=
  (truncNat (|(getXYp (minLatOf bs, minLngOf bs) nd).1| / interval) + 1,
   truncNat (|(getXYp (minLatOf bs, minLngOf bs) nd).2| / interval) + 1)

/-- Content of grid cell (i, j): one appended entry per (building, node)
pair whose node lands in the cell, in the population loop's order.  A
building with several nodes in one cell appears several times, exactly
as in the Python array. -/
def gridCell (bs : List Building) (interval : ℚ) (i j : ℕ) : List Building :=
  bs.flatMap (fun b =>
    (b.nodes.filter (fun nd => decide (cellOf bs interval nd = (i, j)))).map
      (fun _ => b))

/-- First-occurrence deduplication, mirroring the accumulation
`if b not in nearest: nearest.append(b)` (lines 237-238). -/
def collectDedup [DecidableEq α] (l : List α) : List α :=
  l.foldl (fun acc b => if b ∈ acc then acc else acc ++ [b]) []

/-- find_buildings (buildingmanager.py lines 226-239): abs-normalised
planar offsets of the query point, then a bounds-checked visit of the
6 × 6 cell neighborhood at offsets −2..3, collecting the deduplicated
union of cell contents. -/
def findBuildings (bs : List Building) (interval : ℚ) (point : ℚ × ℚ) :
    List Building :=
  let x := |(getXYp (minLatOf bs, minLngOf bs) point).1|
  let y := |(getXYp (minLatOf bs, minLngOf bs) point).2|
  let xi : ℤ := Int.floor (x / interval)
  let yi : ℤ := Int.floor (y / interval)
  collectDedup
    (([-2, -1, 0, 1, 2, 3] : List ℤ).flatMap (fun i =>
      ([-2, -1, 0, 1, 2, 3] : List ℤ).flatMap (fun j =>
        if 0 ≤ xi + i ∧ xi + i < (nxOf bs interval : ℤ)
            ∧ 0 ≤ yi + j ∧ yi + j < (nyOf bs interval : ℤ)
          then gridCell bs interval (xi + i).toNat (yi + j).toNat
          else [])))

/-! ## §6 Output export
(duplicate_utils.py lines 433-452, location_duplicates_utils.py lines
519-535) -/

/-- Base name up to the first dot, transcribing
ann_name_base.split(".")[0]. -/
def baseName (s : String) : String :=
  String.mk (s.toList.takeWhile (fun ch => decide (ch ≠ '.')))

/-- Output filename of a reduction stage: base name plus stage suffix
(duplicate_utils.py lines 442-444, location_duplicates_utils.py lines
526-528). -/
def outputFilename (annBaseName suffix : String) : String :=
  baseName annBaseName ++ suffix

/-- Write to an association-list file system, replacing any existing
entry of the same path. -/
def setFile (fs : List (String × ℕ)) (name : String) (content : ℕ) :
    List (String × ℕ) :=
  fs.filter (fun e => decide (e.1 ≠ name)) ++ [(name, content)]

/-- Content of a path, when present. -/
def getFile (fs : List (String × ℕ)) (name : String) : Option ℕ :=
  (fs.find? (fun e => decide (e.1 = name))).map (fun e => e.2)

/-- Export step closing both remove_duplicates functions: the output
filename is computed and dataset.as_coco writes it unconditionally —
neither function has any branch inspecting whether the target already
exists, so an existing file of the same name is replaced.  The new
annotation payload is abstracted to a content version number. -/
def exportReducedAnnotations (fs : List (String × ℕ)) (annBaseName : String)
    (suffix : String) (newContent : ℕ) : List (String × ℕ) :=
  setFile fs (outputFilename annBaseName suffix) newContent

/-! ## Properties of the embedded operations -/

/-- The vote fold equals a straight count of the voting verifiers. -/
theorem countVotes_eq_countP (apis : List (ℕ × VerifierOutcome)) :
    countVotes apis = apis.countP (fun api => castsVote api.1 api.2) := by
  have h : ∀ (l : List (ℕ × VerifierOutcome)) (acc : ℕ),
      l.foldl (fun votes api => if castsVote api.1 api.2 then votes + 1 else votes) acc
        = acc + l.countP (fun api => castsVote api.1 api.2) := by
    intro l
    induction l with
    | nil => simp
    | cons a t ih =>
      intro acc
      by_cases hv : castsVote a.1 a.2
      · simp [List.countP_cons, hv, ih, Nat.add_comm, Nat.add_assoc, Nat.add_left_comm]
      · simp [List.countP_cons, hv, ih]
  simpa [countVotes] using h apis 0

theorem takeOracle_valid : takeOracle.Valid := by
  refine ⟨?_, ?_⟩
  · intro l hl
    cases l with
    | nil => exact absurd rfl hl
    | cons a t => exact List.mem_cons_self a t
  · intro l k hk
    refine ⟨?_, ?_, ?_⟩
    · simpa [takeOracle] using Nat.min_eq_left hk
    · intro x hx
      exact List.mem_of_mem_take hx
    · intro hnd
      exact hnd.sublist (List.take_sublist k l)

/-! ### Helper lemmas about the cluster reducer -/

theorem zip_map_same (f : α → β) (g : α → γ) :
    ∀ l : List α, (l.map f).zip (l.map g) = l.map (fun x => (f x, g x))
  | [] => rfl
  | x :: t => by simp [zip_map_same f g t]

theorem countP_ne_add_count [DecidableEq α] (a : α) :
    ∀ l : List α, l.countP (fun x => decide (x ≠ a)) + l.count a = l.length
  | [] => by simp
  | b :: t => by
    have ih := countP_ne_add_count a t
    by_cases hba : b = a <;>
      simp [List.countP_cons, List.count_cons, hba] at ih ⊢ <;> omega

theorem idxNotEq_length [DecidableEq α] (l : List α) (a : α) :
    (idxNotEq l a).length = l.length - l.count a := by
  have h1 : (idxNotEq l a).length = l.enum.countP (fun p => decide (p.2 ≠ a)) := by
    simp [idxNotEq, List.countP_eq_length_filter]
  have h2 : l.enum.countP (fun p => decide (p.2 ≠ a))
      = l.countP (fun x => decide (x ≠ a)) := by
    conv_rhs => rw [← List.enum_map_snd l]
    rw [List.countP_map]
    rfl
  have h3 := countP_ne_add_count a l
  omega

theorem foldr_max_mem : ∀ xs : List ℕ, xs ≠ [] → xs.foldr max 0 ∈ xs
  | [x], _ => by simp
  | x :: y :: t, _ => by
    have hrec := foldr_max_mem (y :: t) (by simp)
    simp only [List.foldr_cons] at hrec ⊢
    rcases max_choice x (max y (List.foldr max 0 t)) with h | h
    · rw [h]
      exact List.mem_cons_self _ _
    · rw [h]
      exact List.mem_cons_of_mem x hrec

theorem maxCount_attained [DecidableEq α] (l : List α) (hl : l ≠ []) :
    ∃ x ∈ l.dedup, l.count x = maxCount l := by
  have hd : l.dedup ≠ [] := by
    simpa [List.dedup_eq_nil] using hl
  have hmem : maxCount l ∈ l.dedup.map (fun x => l.count x) :=
    foldr_max_mem _ (by simpa using hd)
  obtain ⟨x, hx, hcx⟩ := List.mem_map.mp hmem
  exact ⟨x, hx, hcx⟩

theorem count_majorityId [DecidableEq α] [Inhabited α] (l : List α) (hl : l ≠ []) :
    l.count (majorityId l) = maxCount l := by
  obtain ⟨x, hx, hcx⟩ := maxCount_attained l hl
  have hf : l.dedup.filter (fun x => l.count x = maxCount l) ≠ [] := by
    intro hnil
    have := List.filter_eq_nil_iff.mp hnil x hx
    simp [hcx] at this
  have hmem : majorityId l ∈ l.dedup.filter (fun x => l.count x = maxCount l) := by
    unfold majorityId
    cases hfe : l.dedup.filter (fun x => l.count x = maxCount l) with
    | nil => exact absurd hfe hf
    | cons a t => simp
  have := List.mem_filter.mp hmem
  simpa using this.2

/-! ### Helper lemmas about the graph reduction -/

theorem flatten_perm {L1 L2 : List (List α)} (h : L1.Perm L2) :
    L1.flatten.Perm L2.flatten := by
  induction h with
  | nil => simp
  | cons x _ ih => simpa using ih.append_left x
  | swap x y l =>
    simp only [List.flatten_cons]
    rw [← List.append_assoc, ← List.append_assoc]
    exact (List.perm_append_comm).append_right _
  | trans _ _ ih1 ih2 => exact ih1.trans ih2

theorem addEdge_invariant [DecidableEq V] (comps : List (List V)) (e : V × V)
    (hnd : comps.flatten.Nodup) (hne : ∀ c ∈ comps, c ≠ []) :
    (addEdge comps e).flatten.Nodup ∧
    (∀ c ∈ addEdge comps e, c ≠ []) ∧
    (∀ x, x ∈ (addEdge comps e).flatten ↔
      x ∈ comps.flatten ∨ x = e.1 ∨ x = e.2) := by
  set p := fun c : List V => decide (e.1 ∈ c ∨ e.2 ∈ c) with hp
  set core := (comps.filter p).flatten with hcore
  set restF := (comps.filter (fun c => ! p c)).flatten with hrest
  have hperm : (comps.filter p ++ comps.filter (fun c => ! p c)).Perm comps :=
    List.filter_append_perm p comps
  have hfp : (core ++ restF).Perm comps.flatten := by
    simpa [hcore, hrest, List.flatten_append] using flatten_perm hperm
  have hnd2 : (core ++ restF).Nodup := hfp.nodup_iff.mpr hnd
  obtain ⟨hndCore, hndRest, hdisj⟩ := List.nodup_append.mp hnd2
  have hmemComps : ∀ x, x ∈ comps.flatten ↔ x ∈ core ∨ x ∈ restF := by
    intro x
    rw [← hfp.mem_iff]
    simp
  have he1 : e.1 ∉ restF := by
    intro hmem
    obtain ⟨c, hc, hxc⟩ := List.mem_flatten.mp hmem
    have hqc := List.of_mem_filter hc
    simp [hp] at hqc
    exact hqc.1 hxc
  have he2 : e.2 ∉ restF := by
    intro hmem
    obtain ⟨c, hc, hxc⟩ := List.mem_flatten.mp hmem
    have hqc := List.of_mem_filter hc
    simp [hp] at hqc
    exact hqc.2 hxc
  set withU := if e.1 ∈ core then core else core ++ [e.1] with hwu
  set withUV := if e.2 ∈ withU then withU else withU ++ [e.2] with hwuv
  have hUmem : ∀ x, x ∈ withU ↔ x ∈ core ∨ x = e.1 := by
    intro x
    rw [hwu]
    by_cases h : e.1 ∈ core <;> simp [h]
    intro hx
    rw [hx]
    exact h
  have hUnd : withU.Nodup := by
    rw [hwu]
    by_cases h : e.1 ∈ core <;> simp [h, List.nodup_append, hndCore]
  have hUVmem : ∀ x, x ∈ withUV ↔ x ∈ core ∨ x = e.1 ∨ x = e.2 := by
    intro x
    rw [hwuv]
    by_cases h : e.2 ∈ withU <;> simp [h, hUmem]
    · constructor
      · tauto
      · rintro (hx | hx | hx)
        · tauto
        · tauto
        · rw [hx]
          have := (hUmem e.2).mp h
          tauto
    · tauto
  have hUVnd : withUV.Nodup := by
    rw [hwuv]
    by_cases h : e.2 ∈ withU <;> simp [h, List.nodup_append, hUnd]
  have hUVne : withUV ≠ [] := by
    have : e.2 ∈ withUV := (hUVmem e.2).mpr (Or.inr (Or.inr rfl))
    exact List.ne_nil_of_mem this
  refine ⟨?_, ?_, ?_⟩
  · show (withUV :: comps.filter (fun c => ! p c)).flatten.Nodup
    rw [List.flatten_cons, List.nodup_append]
    refine ⟨hUVnd, hndRest, ?_⟩
    intro x hxU hxR
    rcases (hUVmem x).mp hxU with hx | hx | hx
    · exact hdisj hx hxR
    · rw [hx] at hxR
      exact he1 hxR
    · rw [hx] at hxR
      exact he2 hxR
  · intro c hc
    rcases List.mem_cons.mp hc with h | h
    · rw [h]
      exact hUVne
    · exact hne c (List.mem_of_mem_filter h)
  · intro x
    show x ∈ (withUV :: comps.filter (fun c => ! p c)).flatten ↔ _
    rw [List.flatten_cons, List.mem_append, hUVmem x, hmemComps x]
    tauto

theorem touchedNodes_cons (e : V × V) (t : List (V × V)) :
    touchedNodes (e :: t) = e.1 :: e.2 :: touchedNodes t := by
  simp [touchedNodes]

theorem components_loop_invariant [DecidableEq V] :
    ∀ (es : List (V × V)) (comps : List (List V)),
      comps.flatten.Nodup → (∀ c ∈ comps, c ≠ []) →
      (es.foldl addEdge comps).flatten.Nodup ∧
      (∀ c ∈ es.foldl addEdge comps, c ≠ []) ∧
      (∀ x, x ∈ (es.foldl addEdge comps).flatten ↔
        x ∈ comps.flatten ∨ x ∈ touchedNodes es)
  | [], comps, h1, h2 => by
    refine ⟨h1, h2, fun x => ?_⟩
    simp [touchedNodes]
  | e :: t, comps, h1, h2 => by
    obtain ⟨a1, a2, a3⟩ := addEdge_invariant comps e h1 h2
    obtain ⟨b1, b2, b3⟩ := components_loop_invariant t (addEdge comps e) a1 a2
    refine ⟨by simpa using b1, by simpa using b2, fun x => ?_⟩
    rw [List.foldl_cons, b3 x, a3 x, touchedNodes_cons]
    simp only [List.mem_cons]
    tauto

theorem components_invariant [DecidableEq V] (es : List (V × V)) :
    (components es).flatten.Nodup ∧ (∀ c ∈ components es, c ≠ []) ∧
    (∀ x, x ∈ (components es).flatten ↔ x ∈ touchedNodes es) := by
  obtain ⟨h1, h2, h3⟩ := components_loop_invariant es [] (by simp) (by simp)
  exact ⟨h1, h2, fun x => by simpa using h3 x⟩

theorem deleteGroups_subset (keep : ℕ → ℕ) :
    ∀ (i : ℕ) (L : List (List V)) (x : V),
      x ∈ deleteGroups keep i L → x ∈ L.flatten
  | _, [], x, h => by simp [deleteGroups] at h
  | i, c :: rest, x, h => by
    rw [deleteGroups] at h
    rcases List.mem_append.mp h with h | h
    · exact List.mem_flatten.mpr
        ⟨c, List.mem_cons_self c rest, (List.eraseIdx_sublist c (keep i)).subset h⟩
    · have := deleteGroups_subset keep (i + 1) rest x h
      rw [List.flatten_cons]
      exact List.mem_append.mpr (Or.inr this)

theorem deleteGroups_length (keep : ℕ → ℕ) :
    ∀ (i : ℕ) (L : List (List V)),
      (∀ j, j < L.length → keep (i + j) < (L.getD j []).length) →
      (deleteGroups keep i L).length = (L.map (fun c => c.length - 1)).sum
  | _, [], _ => by simp [deleteGroups]
  | i, c :: rest, hk => by
    have h0 : keep i < c.length := by
      have := hk 0 (by simp)
      simpa using this
    have hrec := deleteGroups_length keep (i + 1) rest (fun j hj => by
      have hstep := hk (j + 1) (by simpa using Nat.succ_lt_succ hj)
      have e : i + 1 + j = i + (j + 1) := by omega
      rw [e]
      simpa using hstep)
    have hlen := List.length_eraseIdx_add_one h0
    rw [deleteGroups, List.length_append, hrec]
    simp only [List.map_cons, List.sum_cons]
    omega

theorem deleteGroups_unique_survivor [DecidableEq V] (keep : ℕ → ℕ) :
    ∀ (i : ℕ) (L : List (List V)) (j : ℕ),
      L.flatten.Nodup → j < L.length →
      keep (i + j) < (L.getD j []).length →
      ∃! x, x ∈ L.getD j [] ∧ x ∉ deleteGroups keep i L
  | _, [], j, _, hj, _ => absurd hj (by simp)
  | i, g :: rest, 0, hnd, _, hkj => by
    obtain ⟨hndc, hndrest, hdisj⟩ :=
      List.nodup_append.mp (by simpa [List.flatten_cons] using hnd)
    have hki : keep i < g.length := by simpa using hkj
    have hper : (g.erase (g[keep i])).Perm (g.eraseIdx (keep i)) :=
      List.erase_getElem hki
    refine ⟨g[keep i], ⟨by simp, ?_⟩, ?_⟩
    · rw [deleteGroups]
      intro hmem
      rcases List.mem_append.mp hmem with h | h
      · exact hndc.not_mem_erase (hper.mem_iff.mpr h)
      · exact hdisj (List.getElem_mem hki)
          (deleteGroups_subset keep (i + 1) rest _ h)
    · rintro y ⟨hyc, hynot⟩
      by_contra hne
      have hyer : y ∈ g.erase (g[keep i]) :=
        hndc.mem_erase_iff.mpr ⟨hne, by simpa using hyc⟩
      refine hynot ?_
      rw [deleteGroups]
      exact List.mem_append.mpr (Or.inl (hper.mem_iff.mp hyer))
  | i, g :: rest, j + 1, hnd, hj, hkj => by
    obtain ⟨hndc, hndrest, hdisj⟩ :=
      List.nodup_append.mp (by simpa [List.flatten_cons] using hnd)
    have hj' : j < rest.length := by simpa using hj
    have hkj' : keep (i + 1 + j) < (rest.getD j []).length := by
      have e : i + 1 + j = i + (j + 1) := by omega
      rw [e]
      simpa using hkj
    obtain ⟨x, ⟨hx1, hx2⟩, huniq⟩ :=
      deleteGroups_unique_survivor keep (i + 1) rest j hndrest hj' hkj'
    have hxflat : x ∈ rest.flatten := by
      have hgd : rest.getD j [] ∈ rest := by
        rw [List.getD_eq_getElem _ _ hj']
        exact List.getElem_mem hj'
      exact List.mem_flatten.mpr ⟨_, hgd, hx1⟩
    refine ⟨x, ⟨by simpa using hx1, ?_⟩, ?_⟩
    · rw [deleteGroups]
      intro hmem
      rcases List.mem_append.mp hmem with h | h
      · exact hdisj ((List.eraseIdx_sublist g (keep i)).subset h) hxflat
      · exact hx2 h
    · rintro y ⟨hy1, hy2⟩
      refine huniq y ⟨by simpa using hy1, ?_⟩
      intro hmem
      refine hy2 ?_
      rw [deleteGroups]
      exact List.mem_append.mpr (Or.inr hmem)

/-- Survivor draws that always keep index 0 are in range for every
component, since components are never empty. -/
theorem keep_zero_valid [DecidableEq V] (es : List (V × V)) :
    ∀ i, i < (components es).length →
      (fun _ : ℕ => 0) i < ((components es).getD i []).length := by
  intro i hi
  have h := (components_invariant es).2.1
  have hmem : (components es).getD i [] ∈ components es := by
    rw [List.getD_eq_getElem _ _ hi]
    exact List.getElem_mem hi
  exact List.length_pos.mpr (h _ hmem)

/-! ### Helper lemmas about the aggregator -/

theorem filter_eq_singleton_of_nodup [DecidableEq α] :
    ∀ {l : List α} {a : α}, l.Nodup → a ∈ l →
      l.filter (fun x => decide (x = a)) = [a]
  | [], a, _, ha => absurd ha (by simp)
  | b :: t, a, hnd, ha => by
    obtain ⟨hbt, hndt⟩ := List.nodup_cons.mp hnd
    by_cases hba : b = a
    · subst hba
      have hnil : t.filter (fun x => decide (x = b)) = [] := by
        rw [List.filter_eq_nil_iff]
        intro x hx
        simp only [decide_eq_true_eq]
        intro he
        exact hbt (he ▸ hx)
      simp [List.filter_cons, hnil]
    · have hat : a ∈ t := by
        rcases List.mem_cons.mp ha with h | h
        · exact absurd h.symm hba
        · exact h
      have hrec := filter_eq_singleton_of_nodup hndt hat
      simp [List.filter_cons, hba, hrec]

theorem filter_ne_length [DecidableEq α] (l : List α) (a : α)
    (hnd : l.Nodup) (ha : a ∈ l) :
    (l.filter (fun x => decide (x ≠ a))).length = l.length - 1 := by
  have h1 := countP_ne_add_count a l
  have h2 : l.count a = 1 := List.count_eq_one_of_mem hnd ha
  have h3 : (l.filter (fun x => decide (x ≠ a))).length
      = l.countP (fun x => decide (x ≠ a)) :=
    (List.countP_eq_length_filter _ _).symm
  omega

theorem disVal_of_no_denser (objs : List GeoObj) (minDist : ℚ)
    (jitter : ℕ → ℚ) (i : ℕ)
    (h : ∀ j, j < objs.length →
      ¬ rho objs minDist jitter j > rho objs minDist jitter i) :
    disVal objs minDist jitter i = 2147483647 := by
  unfold disVal
  have aux : ∀ (l : List ℕ) (m : ℚ),
      (∀ j ∈ l, ¬ rho objs minDist jitter j > rho objs minDist jitter i) →
      l.foldl
        (fun m j =>
          if rho objs minDist jitter j > rho objs minDist jitter i
              ∧ sqDist objs i j < m
            then sqDist objs i j else m) m = m := by
    intro l
    induction l with
    | nil => intro m _; rfl
    | cons a t ih =>
      intro m hall
      rw [List.foldl_cons, if_neg (by
        have := hall a (by simp)
        tauto)]
      exact ih m (fun j hj => hall j (by simp [hj]))
  exact aux _ _ (fun j hj => h j (List.mem_range.mp hj))

theorem disVal_of_denser_zero (objs : List GeoObj) (minDist : ℚ)
    (jitter : ℕ → ℚ) (i : ℕ)
    (hzero : ∀ j, j < objs.length → sqDist objs i j = 0)
    (hex : ∃ j, j < objs.length
      ∧ rho objs minDist jitter j > rho objs minDist jitter i) :
    disVal objs minDist jitter i = 0 := by
  unfold disVal
  have aux0 : ∀ (l : List ℕ),
      (∀ j ∈ l, sqDist objs i j = 0) →
      l.foldl
        (fun m j =>
          if rho objs minDist jitter j > rho objs minDist jitter i
              ∧ sqDist objs i j < m
            then sqDist objs i j else m) 0 = 0 := by
    intro l
    induction l with
    | nil => intro _; rfl
    | cons a t ih =>
      intro hall
      rw [List.foldl_cons, if_neg (by
        rw [hall a (by simp)]
        simp)]
      exact ih (fun j hj => hall j (by simp [hj]))
  have aux1 : ∀ (l : List ℕ) (m : ℚ), 0 < m →
      (∀ j ∈ l, sqDist objs i j = 0) →
      (∃ j ∈ l, rho objs minDist jitter j > rho objs minDist jitter i) →
      l.foldl
        (fun m j =>
          if rho objs minDist jitter j > rho objs minDist jitter i
              ∧ sqDist objs i j < m
            then sqDist objs i j else m) m = 0 := by
    intro l
    induction l with
    | nil =>
      intro m _ _ hex0
      simp at hex0
    | cons a t ih =>
      intro m hm hall hex0
      rw [List.foldl_cons]
      by_cases hPa : rho objs minDist jitter a > rho objs minDist jitter i
      · rw [if_pos ⟨hPa, by rw [hall a (by simp)]; exact hm⟩,
          hall a (by simp)]
        exact aux0 t (fun j hj => hall j (by simp [hj]))
      · rw [if_neg (by tauto)]
        have hext : ∃ j ∈ t, rho objs minDist jitter j > rho objs minDist jitter i := by
          obtain ⟨j, hj, hrj⟩ := hex0
          rcases List.mem_cons.mp hj with h | h
          · exact absurd (h ▸ hrj) hPa
          · exact ⟨j, h, hrj⟩
        exact ih m hm (fun j hj => hall j (by simp [hj])) hext
  obtain ⟨j, hj, hrj⟩ := hex
  exact aux1 _ _ (by norm_num)
    (fun j hj => hzero j (List.mem_range.mp hj))
    ⟨j, List.mem_range.mpr hj, hrj⟩

/-- Whatever was stored before, the file written by setFile is
retrievable with its new content. -/
theorem getFile_setFile (fs : List (String × ℕ)) (name : String) (c : ℕ) :
    getFile (setFile fs name c) name = some c := by
  unfold getFile setFile
  induction fs with
  | nil => simp [List.find?]
  | cons e t ih =>
    by_cases he : e.1 = name
    · simp [List.filter_cons, he]
    · simp [List.filter_cons, he, List.find?_cons]

end RemovalPipeline

open RemovalPipeline

/-- C3: for every candidate detection pair judged by a verifier list of
size N, a duplicate edge is recorded iff the vote count is at least
⌊N/2⌋ + 1; with N = 3 verifiers, 2 votes yield an edge and 1 vote yields
none. -/
theorem C3_majority_rule (apis : List (ℕ × VerifierOutcome)) :
    (edgeRecorded apis = true ↔ apis.length / 2 + 1 ≤ countVotes apis) ∧
    (apis.length = 3 →
      (countVotes apis = 2 → edgeRecorded apis = true) ∧
      (countVotes apis = 1 → edgeRecorded apis = false)) := by
  refine ⟨by simp [edgeRecorded], ?_⟩
  intro h3
  constructor
  · intro h2
    simp [edgeRecorded, h2, h3]
  · intro h1
    simp [edgeRecorded, h1, h3]

/-- Witness for C3: a three-verifier set where two verifiers vote records
an edge, and one where a single verifier votes records none. -/
theorem C3_majority_rule_witness :
    edgeRecorded [(5, .matches 9), (5, .matches 9), (5, .failure)] = true ∧
    edgeRecorded [(5, .matches 9), (5, .failure), (5, .failure)] = false := by
  constructor
  · exact ((C3_majority_rule [(5, .matches 9), (5, .matches 9), (5, .failure)]).2
      (by decide)).1 (by decide)
  · exact ((C3_majority_rule [(5, .matches 9), (5, .failure), (5, .failure)]).2
      (by decide)).2 (by decide)

/-- C10: for every input cluster of length n ≥ 1, whatever the random
draws, the cluster redundancy reducer marks at most n − 1 entries for
deletion, so at least one entry of every cluster survives reduction. -/
theorem C10_at_least_one_survives [DecidableEq α] [Inhabited α] [Inhabited β]
    (R : RandOracle) (hR : R.Valid) (ids : List α) (anns : List β)
    (h1 : 1 ≤ ids.length) :
    (deletedEntries R ids anns).length ≤ ids.length - 1 := by
  obtain ⟨hch, hsa⟩ := hR
  by_cases e1 : ids.length = 1
  · simp [deletedEntries, processRow, e1]
  by_cases e2 : ids.dedup.length = 1
  · simp [deletedEntries, processRow, e1, e2]
  by_cases e3 : ids.length = 2
  · simp [deletedEntries, processRow, e1, e2, e3]
  by_cases e4 : ids.length = 3
  · by_cases d3 : ids.dedup.length = 3
    · have hs := (hsa [0, 1, 2] 2 (by simp)).1
      simp [deletedEntries, processRow, e1, e2, e3, e4, d3, zip_map_same, hs]
    · by_cases m2 : ids.count (majorityId ids) = 2
      · simp [deletedEntries, processRow, e1, e2, e3, e4, d3, m2]
      · simp [deletedEntries, processRow, e1, e2, e3, e4, d3, m2]
  by_cases e5 : ids.length = 4
  · by_cases d4 : ids.dedup.length = 4
    · have hs := (hsa [0, 1, 2, 3] 3 (by simp)).1
      simp [deletedEntries, processRow, e1, e2, e3, e4, e5, d4, zip_map_same, hs]
    · by_cases m3 : ids.count (majorityId ids) = 3
      · simp [deletedEntries, processRow, e1, e2, e3, e4, e5, d4, m3]
      · by_cases m2 : ids.count (majorityId ids) = 2
        · by_cases dd3 : ids.dedup.length = 3
          · have hlen := idxNotEq_length ids (majorityId ids)
            simp [deletedEntries, processRow, e1, e2, e3, e4, e5, d4, m3, m2, dd3,
              zip_map_same]
            omega
          · simp [deletedEntries, processRow, e1, e2, e3, e4, e5, d4, m3, m2, dd3]
        · simp [deletedEntries, processRow, e1, e2, e3, e4, e5, d4, m3, m2]
  · have e6 : 4 < ids.length := by omega
    by_cases dAll : ids.dedup.length = ids.length
    · have hs := (hsa (List.range ids.length) (ids.length - 1)
        (by simp)).1
      simp [deletedEntries, processRow, e1, e2, e3, e4, e5, e6, dAll,
        zip_map_same, hs]
    · by_cases hmaj : ids.length < 2 * maxCount ids
      · have hs := (hsa (idxNotEq ids (majorityId ids))
          (min 2 (idxNotEq ids (majorityId ids)).length)
          (Nat.min_le_right _ _)).1
        simp [deletedEntries, processRow, e1, e2, e3, e4, e5, e6, dAll, hmaj,
          zip_map_same, hs]
        omega
      · by_cases hpairs : ids.dedup.all (fun x => ids.count x = 2)
        · simp [deletedEntries, processRow, e1, e2, e3, e4, e5, e6, dAll, hmaj,
            hpairs]
          omega
        · simp [deletedEntries, processRow, e1, e2, e3, e4, e5, e6, dAll, hmaj,
            hpairs]
          omega

/-- Witness for C10: a five-entry cluster with a three-entry majority
under the deterministic draws deletes at most four entries. -/
theorem C10_at_least_one_survives_witness :
    (deletedEntries takeOracle [3, 3, 3, 8, 9] ([0, 1, 2, 3, 4] : List ℕ)).length
      ≤ [3, 3, 3, 8, 9].length - 1 :=
  C10_at_least_one_survives takeOracle takeOracle_valid
    [3, 3, 3, 8, 9] [0, 1, 2, 3, 4] (by decide)

/-- C4: after the duplicate-graph reduction, the deletions are exactly
the non-survivor members of the connected components of the
duplicate-edge graph: the total number of deletions equals the sum over
components of (component size − 1), each component retains exactly one
surviving member, and a detection not touched by any duplicate edge is
never deleted. -/
theorem C4_graph_reduction [DecidableEq V] (es : List (V × V)) (keep : ℕ → ℕ)
    (hk : ∀ i, i < (components es).length →
      keep i < ((components es).getD i []).length) :
    (forDeletion es keep).length
      = ((components es).map (fun g => g.length - 1)).sum ∧
    (∀ j, j < (components es).length →
      ∃! x, x ∈ (components es).getD j [] ∧ x ∉ forDeletion es keep) ∧
    (∀ x, x ∉ touchedNodes es → x ∉ forDeletion es keep) := by
  obtain ⟨hnd, hne, hmem⟩ := components_invariant es
  refine ⟨?_, ?_, ?_⟩
  · exact deleteGroups_length keep 0 (components es)
      (fun j hj => by simpa using hk j hj)
  · intro j hj
    exact deleteGroups_unique_survivor keep 0 (components es) j hnd hj
      (by simpa using hk j hj)
  · intro x hx hdel
    exact hx ((hmem x).mp (deleteGroups_subset keep 0 (components es) x hdel))

/-- Witness for C4: three duplicate edges over natural-number nodes,
forming the two components 0-1-2 and 5-6, reduced with keep-index-0
survivor draws. -/
theorem C4_graph_reduction_witness :
    (forDeletion [((0 : ℕ), (1 : ℕ)), (1, 2), (5, 6)] (fun _ => 0)).length
      = ((components [((0 : ℕ), (1 : ℕ)), (1, 2), (5, 6)]).map
          (fun g => g.length - 1)).sum ∧
    (∀ j, j < (components [((0 : ℕ), (1 : ℕ)), (1, 2), (5, 6)]).length →
      ∃! x, x ∈ (components [((0 : ℕ), (1 : ℕ)), (1, 2), (5, 6)]).getD j []
        ∧ x ∉ forDeletion [((0 : ℕ), (1 : ℕ)), (1, 2), (5, 6)] (fun _ => 0)) ∧
    (∀ x, x ∉ touchedNodes [((0 : ℕ), (1 : ℕ)), (1, 2), (5, 6)] →
      x ∉ forDeletion [((0 : ℕ), (1 : ℕ)), (1, 2), (5, 6)] (fun _ => 0)) :=
  C4_graph_reduction [((0 : ℕ), (1 : ℕ)), (1, 2), (5, 6)] (fun _ => 0)
    (keep_zero_valid [((0 : ℕ), (1 : ℕ)), (1, 2), (5, 6)])

/-- C5: density-peak aggregation of N ≥ 1 coincident points (identical
planar coordinates) returns exactly one exemplar, whose local density is
N and whose isolation value is the large sentinel 2147483647, for any
injective tie-breaking jitter; aggregation of an empty input returns the
empty cluster list. -/
theorem C5_coincident_aggregation (n : ℕ) (p : GeoObj) (objs : List GeoObj)
    (jitter : ℕ → ℚ) (hn : 1 ≤ n) (hlen : objs.length = n)
    (hco : ∀ q ∈ objs, q.lat = p.lat ∧ q.lng = p.lng)
    (hinj : ∀ i j, i < n → j < n → jitter i = jitter j → i = j) :
    (∀ jit0 : ℕ → ℚ, aggregate [] 8 jit0 = []) ∧
    ∃ i, i < n ∧ density objs 8 i = n
      ∧ disVal objs 8 jitter i = 2147483647
      ∧ aggregate objs 8 jitter = [aggOutputAt objs 8 i] := by
  refine ⟨fun jit0 => by simp [aggregate], ?_⟩
  have hmem : ∀ i, i < n → objs.getD i default ∈ objs := by
    intro i hi
    rw [List.getD_eq_getElem _ _ (by omega : i < objs.length)]
    exact List.getElem_mem (by omega)
  have hpx : ∀ i, i < n → pxOf objs i = 0 := by
    intro i hi
    by_cases h0 : i = 0
    · simp [pxOf, h0]
    · have h1 := hco _ (hmem 0 (by omega))
      have h2 := hco _ (hmem i hi)
      unfold pxOf getXY
      rw [if_neg h0]
      show (objs.getD i default).lng - (objs.getD 0 default).lng = 0
      rw [h2.2, h1.2, sub_self]
  have hpy : ∀ i, i < n → pyOf objs i = 0 := by
    intro i hi
    by_cases h0 : i = 0
    · simp [pyOf, h0]
    · have h1 := hco _ (hmem 0 (by omega))
      have h2 := hco _ (hmem i hi)
      unfold pyOf getXY
      rw [if_neg h0]
      show (objs.getD i default).lat - (objs.getD 0 default).lat = 0
      rw [h2.1, h1.1, sub_self]
  have hsq : ∀ i j, i < n → j < n → sqDist objs i j = 0 := by
    intro i j hi hj
    unfold sqDist
    rw [hpx i hi, hpx j hj, hpy i hi, hpy j hj]
    ring
  have hnbIdx : ∀ i, i < n → neighborIdx objs 8 i
      = (List.range n).filter (fun j => decide (j ≠ i)) := by
    intro i hi
    unfold neighborIdx
    rw [hlen]
    refine List.filter_congr ?_
    intro j hj
    have hjn := List.mem_range.mp hj
    unfold isNeighbor
    rw [hsq i j hi hjn]
    apply decide_eq_decide.mpr
    constructor
    · intro h
      exact h.1.symm
    · intro h
      exact ⟨h.symm, by norm_num⟩
  have hnbLen : ∀ i, i < n → (neighborIdx objs 8 i).length = n - 1 := by
    intro i hi
    rw [hnbIdx i hi]
    simpa using filter_ne_length (List.range n) i (List.nodup_range n)
      (List.mem_range.mpr hi)
  have hdens : ∀ i, i < n → density objs 8 i = n := by
    intro i hi
    unfold density
    rw [hnbLen i hi]
    omega
  have hrho : ∀ i, i < n → rho objs 8 jitter i = (n : ℚ) + jitter i := by
    intro i hi
    unfold rho
    rw [hdens i hi]
  obtain ⟨im, him⟩ : ∃ im, im ∈ (List.range n).argmax jitter := by
    cases h : (List.range n).argmax jitter with
    | none =>
      have h0 := List.argmax_eq_none.mp h
      have : n = 0 := by simpa using congrArg List.length h0
      omega
    | some m => exact ⟨m, rfl⟩
  have himn : im < n := List.mem_range.mp (List.argmax_mem him)
  have hmax : ∀ a, a < n → jitter a ≤ jitter im := fun a ha =>
    List.le_of_mem_argmax (List.mem_range.mpr ha) him
  have hgt : ∀ i, i < n → i ≠ im →
      rho objs 8 jitter im > rho objs 8 jitter i := by
    intro i hi hne
    rw [hrho i hi, hrho im himn]
    have hle := hmax i hi
    have hj1 : jitter i ≠ jitter im := fun he => hne (hinj i im hi himn he)
    have hj2 : jitter i < jitter im := lt_of_le_of_ne hle hj1
    linarith
  have hdisIm : disVal objs 8 jitter im = 2147483647 := by
    apply disVal_of_no_denser
    intro j hj
    rw [hlen] at hj
    rw [hrho j hj, hrho im himn]
    have := hmax j hj
    exact not_lt.mpr (by linarith)
  have hdisOther : ∀ i, i < n → i ≠ im → disVal objs 8 jitter i = 0 := by
    intro i hi hne
    apply disVal_of_denser_zero
    · intro j hj
      rw [hlen] at hj
      exact hsq i j hi hj
    · exact ⟨im, by rw [hlen]; exact himn, hgt i hi hne⟩
  have hfilter : (List.range objs.length).filter
      (fun i => decide ((8 : ℚ) ^ 2 < disVal objs 8 jitter i)) = [im] := by
    rw [hlen]
    have hcg : ∀ i ∈ List.range n,
        (decide ((8 : ℚ) ^ 2 < disVal objs 8 jitter i)) = (decide (i = im)) := by
      intro i hi
      have hin := List.mem_range.mp hi
      by_cases he : i = im
      · subst he
        rw [hdisIm]
        have hlt : ((8 : ℚ) ^ 2 < 2147483647) := by norm_num
        simp [hlt]
      · rw [hdisOther i hin he]
        have hnlt : ¬ ((8 : ℚ) ^ 2 < 0) := by norm_num
        simp [he, hnlt]
    rw [List.filter_congr hcg]
    exact filter_eq_singleton_of_nodup (List.nodup_range n) (List.mem_range.mpr himn)
  refine ⟨im, himn, hdens im himn, hdisIm, ?_⟩
  unfold aggregate
  rw [if_neg (by omega), hfilter]
  simp

/-- Witness for C5: two coincident points with jitter 0 and 1 aggregate
to a single exemplar of density 2 and sentinel isolation. -/
theorem C5_coincident_aggregation_witness :
    (∀ jit0 : ℕ → ℚ, aggregate [] 8 jit0 = []) ∧
    ∃ i, i < 2
      ∧ density [⟨5, 7, 1, 2, 3⟩, ⟨5, 7, 1, 4, 5⟩] 8 i = 2
      ∧ disVal [⟨5, 7, 1, 2, 3⟩, ⟨5, 7, 1, 4, 5⟩] 8 (fun i => (i : ℚ)) i
          = 2147483647
      ∧ aggregate [⟨5, 7, 1, 2, 3⟩, ⟨5, 7, 1, 4, 5⟩] 8 (fun i => (i : ℚ))
          = [aggOutputAt [⟨5, 7, 1, 2, 3⟩, ⟨5, 7, 1, 4, 5⟩] 8 i] :=
  C5_coincident_aggregation 2 ⟨5, 7, 1, 2, 3⟩
    [⟨5, 7, 1, 2, 3⟩, ⟨5, 7, 1, 4, 5⟩] (fun i => (i : ℚ))
    (by omega) rfl
    (by
      intro q hq
      fin_cases hq <;> exact ⟨rfl, rfl⟩)
    (by
      intro i j _ _ h
      exact Nat.cast_injective h)

/-- C9 (amended): find_buildings is total — every cell visit is bounds
checked — and a query point whose abs-normalised planar x offset lies at
least two cells beyond the grid width returns the empty list.  Plain
outside-ness is not enough: the offsets are folded by abs(), so a point
far beyond the minimum corner aliases back onto the grid. -/
theorem C9_far_query_empty (bs : List Building) (interval : ℚ) (point : ℚ × ℚ)
    (hfar : (nxOf bs interval : ℤ) + 2 ≤
      Int.floor (|(getXYp (minLatOf bs, minLngOf bs) point).1| / interval)) :
    findBuildings bs interval point = [] := by
  unfold findBuildings
  dsimp only
  rw [show (([-2, -1, 0, 1, 2, 3] : List ℤ).flatMap fun i =>
      ([-2, -1, 0, 1, 2, 3] : List ℤ).flatMap fun j =>
        if 0 ≤ Int.floor (|(getXYp (minLatOf bs, minLngOf bs) point).1| / interval) + i
            ∧ Int.floor (|(getXYp (minLatOf bs, minLngOf bs) point).1| / interval) + i
                < (nxOf bs interval : ℤ)
            ∧ 0 ≤ Int.floor (|(getXYp (minLatOf bs, minLngOf bs) point).2| / interval) + j
            ∧ Int.floor (|(getXYp (minLatOf bs, minLngOf bs) point).2| / interval) + j
                < (nyOf bs interval : ℤ)
          then gridCell bs interval
            (Int.floor (|(getXYp (minLatOf bs, minLngOf bs) point).1| / interval) + i).toNat
            (Int.floor (|(getXYp (minLatOf bs, minLngOf bs) point).2| / interval) + j).toNat
          else []) = [] from ?_]
  · rfl
  rw [List.flatMap_eq_nil_iff]
  intro i hi
  rw [List.flatMap_eq_nil_iff]
  intro j hj
  rw [if_neg]
  intro hcond
  have hi6 : -2 ≤ i := by
    simp at hi
    rcases hi with h | h | h | h | h | h <;> omega
  omega

/-- Witness for the amended C9: a 10000-unit-wide loaded area queried
10250 units beyond its far corner returns the empty list. -/
theorem C9_far_query_empty_witness :
    findBuildings [⟨0, [(0, 0), (0, 10000)]⟩] 50 ((0 : ℚ), (20250 : ℚ)) = [] :=
  C9_far_query_empty [⟨0, [(0, 0), (0, 10000)]⟩] 50 ((0 : ℚ), (20250 : ℚ))
    (by
      norm_num [nxOf, widthOf, truncNat, getXYp, minLatOf, minLngOf,
        maxLatOf, maxLngOf, allNodes, min_def, max_def])

/-- C9 (counterexample): a query point 10000 units outside the loaded
bounding box on the negative-longitude side is folded back onto the grid
by the abs() normalisation and returns the loaded building, not the
empty list the claim requires. -/
theorem C9_counterexample :
    findBuildings [⟨0, [(0, 0), (0, 10000)]⟩] 50 ((0 : ℚ), (-10000 : ℚ))
      = [⟨0, [(0, 0), (0, 10000)]⟩] ∧
    findBuildings [⟨0, [(0, 0), (0, 10000)]⟩] 50 ((0 : ℚ), (-10000 : ℚ))
      ≠ [] := by
  have heq : findBuildings [⟨0, [(0, 0), (0, 10000)]⟩] 50 ((0 : ℚ), (-10000 : ℚ))
      = [⟨0, [(0, 0), (0, 10000)]⟩] := by
    norm_num [findBuildings, gridCell, cellOf, nxOf, nyOf, widthOf, heightOf,
      truncNat, getXYp, minLatOf, minLngOf, maxLatOf, maxLngOf, allNodes,
      collectDedup, List.filter_cons, min_def, max_def, Int.toNat_ofNat,
      List.replicate_succ, List.replicate_zero]
    decide
  refine ⟨heq, ?_⟩
  rw [heq]
  simp

/-- C8 (counterexample): with the location-level output file already
present holding content version 7, the export writes through and the
file ends with the new content version 9 — no fatal error is raised and
the existing output is not preserved. -/
theorem C8_counterexample :
    getFile
      (exportReducedAnnotations
        [("annotations_no_duplicates_image_location.json", 7)]
        "annotations.json" "_no_duplicates_image_location.json" 9)
      "annotations_no_duplicates_image_location.json" = some 9 ∧
    getFile
      (exportReducedAnnotations
        [("annotations_no_duplicates_image_location.json", 7)]
        "annotations.json" "_no_duplicates_image_location.json" 9)
      "annotations_no_duplicates_image_location.json" ≠ some 7 := by
  constructor <;> decide

/-- C8 (amended): both reduction stages export unconditionally: whatever
the prior file-system state, the export completes and the output path
holds the newly written content, so an existing file of the same name is
silently replaced rather than triggering a fatal error before the
write. -/
theorem C8_unconditional_overwrite (fs : List (String × ℕ))
    (base : String) (content : ℕ) :
    getFile
      (exportReducedAnnotations fs base "_no_duplicates_image.json" content)
      (outputFilename base "_no_duplicates_image.json") = some content ∧
    getFile
      (exportReducedAnnotations fs base "_no_duplicates_image_location.json" content)
      (outputFilename base "_no_duplicates_image_location.json") = some content :=
  ⟨getFile_setFile fs _ content, getFile_setFile fs _ content⟩

/-- C2 (counterexample): on the pairwise-distinct three-entry cluster
[10, 20, 30] with annotation ids [0, 1, 2] and the deterministic draws,
the reducer deletes two entries, not exactly one as the claim states. -/
theorem C2_counterexample :
    deletedEntries takeOracle ([10, 20, 30] : List ℕ) ([0, 1, 2] : List ℕ)
      = [(10, 0), (20, 1)] ∧
    (deletedEntries takeOracle ([10, 20, 30] : List ℕ)
      ([0, 1, 2] : List ℕ)).length ≠ 1 := by
  constructor <;> decide

/-- C2 (amended): for every cluster whose image_ids are pairwise distinct
and of length n ≥ 3, whatever the random draws, the reducer deletes
exactly n − 1 of the n entries (the sampled subset is the deleted one)
and keeps a single entry. -/
theorem C2_distinct_deletes_all_but_one [DecidableEq α] [Inhabited α] [Inhabited β]
    (R : RandOracle) (hR : R.Valid) (ids : List α) (anns : List β)
    (hnd : ids.Nodup) (h3 : 3 ≤ ids.length) :
    (deletedEntries R ids anns).length = ids.length - 1 := by
  obtain ⟨hch, hsa⟩ := hR
  have hded : ids.dedup = ids := List.dedup_eq_self.mpr hnd
  have e1 : ¬ ids.length = 1 := by omega
  have e2 : ¬ ids.dedup.length = 1 := by rw [hded]; omega
  have e3 : ¬ ids.length = 2 := by omega
  by_cases e4 : ids.length = 3
  · have d3 : ids.dedup.length = 3 := by rw [hded]; exact e4
    have hs := (hsa [0, 1, 2] 2 (by simp)).1
    simp [deletedEntries, processRow, e1, e2, e3, e4, d3, zip_map_same, hs]
  by_cases e5 : ids.length = 4
  · have d4 : ids.dedup.length = 4 := by rw [hded]; exact e5
    have hs := (hsa [0, 1, 2, 3] 3 (by simp)).1
    simp [deletedEntries, processRow, e1, e2, e3, e4, e5, d4, zip_map_same, hs]
  · have e6 : 4 < ids.length := by omega
    have dAll : ids.dedup.length = ids.length := by rw [hded]
    have hs := (hsa (List.range ids.length) (ids.length - 1) (by simp)).1
    simp [deletedEntries, processRow, e1, e2, e3, e4, e5, e6, dAll,
      zip_map_same, hs]

/-- Witness for the amended C2: the distinct cluster [10, 20, 30] under
the deterministic draws loses exactly two of its three entries. -/
theorem C2_distinct_deletes_all_but_one_witness :
    (deletedEntries takeOracle ([10, 20, 30] : List ℕ)
      ([0, 1, 2] : List ℕ)).length = [10, 20, 30].length - 1 :=
  C2_distinct_deletes_all_but_one takeOracle takeOracle_valid
    [10, 20, 30] [0, 1, 2] (by decide) (by decide)

/-- C6 (counterexample): on the two-pair cluster [7, 7, 9, 9] with
annotation ids [0, 1, 2, 3] and the deterministic draws, the reducer
takes the ambiguous-grouping fallback and deletes the single entry
(7, 0); it does not delete the two entries of a non-majority pair. -/
theorem C6_counterexample :
    deletedEntries takeOracle ([7, 7, 9, 9] : List ℕ) ([0, 1, 2, 3] : List ℕ)
      = [(7, 0)] ∧
    (deletedEntries takeOracle ([7, 7, 9, 9] : List ℕ)
      ([0, 1, 2, 3] : List ℕ)).length ≠ 2 := by
  constructor <;> decide

/-- C6 (amended): a length-4 cluster whose image_ids form exactly two
pairs (two distinct ids, each appearing twice) falls into the
ambiguous-grouping fallback: exactly one entry, the one at the randomly
chosen position, is deleted — the branch that deletes the two
non-majority entries is reached only by the 2+1+1 pattern. -/
theorem C6_two_pairs_fallback [DecidableEq α] [Inhabited α] [Inhabited β]
    (R : RandOracle) (ids : List α) (anns : List β)
    (h4 : ids.length = 4) (hd2 : ids.dedup.length = 2)
    (hm : maxCount ids = 2) :
    deletedEntries R ids anns
      = [(ids.getD (R.choice [0, 1, 2, 3]) default,
          anns.getD (R.choice [0, 1, 2, 3]) default)] := by
  have hne : ids ≠ [] := by
    intro h
    rw [h] at h4
    simp at h4
  have hcnt : ids.count (majorityId ids) = 2 := by
    rw [count_majorityId ids hne, hm]
  have e1 : ¬ ids.length = 1 := by omega
  have e2 : ¬ ids.dedup.length = 1 := by omega
  have e3 : ¬ ids.length = 2 := by omega
  have e4 : ¬ ids.length = 3 := by omega
  have d4 : ¬ ids.dedup.length = 4 := by omega
  have m3 : ¬ ids.count (majorityId ids) = 3 := by omega
  have dd3 : ¬ ids.dedup.length = 3 := by omega
  simp [deletedEntries, processRow, e1, e2, e3, e4, h4, d4, m3, hcnt, dd3]

/-- Witness for the amended C6: the two-pair cluster [7, 7, 9, 9] under
the deterministic draws loses exactly the entry at position 0. -/
theorem C6_two_pairs_fallback_witness :
    deletedEntries takeOracle ([7, 7, 9, 9] : List ℕ) ([0, 1, 2, 3] : List ℕ)
      = [((7 : ℕ), (0 : ℕ))] := by
  have h := C6_two_pairs_fallback takeOracle ([7, 7, 9, 9] : List ℕ)
    ([0, 1, 2, 3] : List ℕ) (by decide) (by decide) (by decide)
  simpa [takeOracle] using h

/-- C1 (failing input): the stored neighbors list always contains the
queried image index itself.  With a single indexed image (the self-match
is the only result) the stored list is [0], not the empty list the claim
requires; with two coincident images the stored list for image 0 is
[0, 1], again containing the queried index 0. -/
theorem C1_self_match_stored :
    storedNeighbors (fun _ _ => 0) 1 (neighborRadius 30) 0 = [0] ∧
    storedNeighbors (fun _ _ => 0) 2 (neighborRadius 30) 0 = [0, 1] := by
  have hr : ((0 : ℚ) ≤ neighborRadius 30) := by norm_num [neighborRadius]
  constructor <;>
    simp [storedNeighbors, queryRadius, List.range_succ, hr]
